import Mathlib

/-!
Verification of the size-key grammar, name/path encoding and URL resolution of
`versatileimagefield/utils.py`.

Python strings are modelled as Lean `String`; the string operations the source
uses (`split`, `rsplit`, `in`, `lower`, `replace`, `os.path.split`,
`os.path.join`) are embedded as character-level functions so that every
definition is executable by kernel reduction.  Python attribute/key lookups are
modelled on an explicit value tree (`PyVal`), Python exceptions as explicit
error values (`PyErr`, `ValidationError`, `BuildErr`), and the
configuration surface (`settings.py`, which is not part of the analysed
source) as an explicit `Config` record.
-/

namespace VIF

/-! ## Character-level embeddings of the Python string operations -/

/-- Embedding of Python `s.split('__')`: greedy left-to-right split of a
character list on the two-character delimiter `__`. -/
def splitOnDunderChars : List Char → List (List Char)
  | [] => [[]]
  | '_' :: '_' :: rest => [] :: splitOnDunderChars rest
  | c :: rest =>
    match splitOnDunderChars rest with
    | [] => [[c]]
    | seg :: segs => (c :: seg) :: segs

/-- Python `image_key.split('__')` on strings. -/
def pySplitDunder (s : String) : List String :=
  (splitOnDunderChars s.data).map (fun l => String.mk l)

/-- Python `c in s` (character membership test). -/
def pyContains (s : String) (c : Char) : Bool :=
  s.data.contains c

/-- Python `s.lower()`. -/
def pyLower (s : String) : String :=
  String.mk (s.data.map Char.toLower)

/-- Helper for Python `filename.rsplit('.', 1)`: splits a character list at its
last `'.'`, dropping the dot; `none` when no dot occurs. -/
def splitAtLastDot : List Char → Option (List Char × List Char)
  | [] => none
  | c :: rest =>
    match splitAtLastDot rest with
    | some (h, t) => some (c :: h, t)
    | none => if c = '.' then some ([], rest) else none

/-- Python `filename.rsplit('.', 1)` with the source's `except ValueError`
fallback: `(stem, ext)` on the last dot, or `(filename, "jpg")` when the
name has no dot. -/
def rsplitExt (filename : String) : String × String :=
  match splitAtLastDot filename.data with
  | none => (filename, "jpg")
  | some (stem, ext) => (String.mk stem, String.mk ext)

/-- Helper for `os.path.split`: splits a character list after its last `'/'`
(the head keeps the trailing slash, as in `posixpath`); `none` when the list
has no slash. -/
def splitAtLastSlash : List Char → Option (List Char × List Char)
  | [] => none
  | c :: rest =>
    match splitAtLastSlash rest with
    | some (h, t) => some (c :: h, t)
    | none => if c = '/' then some (['/'], rest) else none

/-- Drops trailing `'/'` characters (the `head.rstrip('/')` of `posixpath.split`). -/
def rstripSlashes (l : List Char) : List Char :=
  (l.reverse.dropWhile (fun c => c = '/')).reverse

/-- Embedding of `os.path.split` (POSIX): the head is everything up to the last
slash with trailing slashes stripped unless the head is all slashes; the tail
is everything after the last slash. -/
def pathSplit (p : String) : String × String :=
  match splitAtLastSlash p.data with
  | none => ("", p)
  | some (h, t) =>
    if h.all (fun c => c = '/') then (String.mk h, String.mk t)
    else (String.mk (rstripSlashes h), String.mk t)

/-- One step of `os.path.join` (POSIX): an absolute second component replaces
the path so far; otherwise a single separator is inserted unless one is
already present. -/
def pathJoin2 (a b : String) : String :=
  if b.data.head? = some '/' then b
  else if a.data = [] ∨ a.data.getLast? = some '/' then String.mk (a.data ++ b.data)
  else String.mk (a.data ++ '/' :: b.data)

/-- Embedding of `os.path.join(*parts)`. -/
def pathJoin : List String → String
  | [] => ""
  | p :: rest => rest.foldl pathJoin2 p

/-- Python `joined_path.replace(' ', '')`: removes every space character. -/
def removeSpaces (s : String) : String :=
  String.mk (s.data.filter (fun c => c ≠ ' '))

/-! ## Configuration surface -/

/-- Modelled from the spec: the configuration surface (spec section 6) read by
`utils.py` from the `settings` module, which is outside the analysed source:
JPEG/WEBP quality integers, the optional post-processing hook
(`VERSATILEIMAGEFIELD_POST_PROCESSOR`, `none` meaning no hook configured), and
the sized/filtered directory names. -/
structure Config where
  JPEG_QUAL : Int
  WEBP_QUAL : Int
  POST_PROCESSOR : Option (String → String)
  SIZED_DIRNAME : String
  FILTERED_DIRNAME : String

/-- Embedding of `post_process_image_key`: apply the configured processor
function if there is one, otherwise return the key unchanged. -/
def post_process_image_key (cfg : Config) (image_key : String) : String :=
  match cfg.POST_PROCESSOR with
  | none => image_key
  | some f => f image_key

/-! ## Python runtime errors -/

/-- The Python exceptions the resolution and classification code can raise:
`AttributeError` (carrying the looked-up attribute name), `KeyError` (carrying
the looked-up key) and `TypeError` (subscripting a non-subscriptable value). -/
inductive PyErr where
  | attributeError (name : String)
  | keyError (key : String)
  | typeError
deriving DecidableEq, Repr

/-! ## MIME registry and stream classification -/

/-- Embedding of the static `MIME_TYPE_TO_PIL_IDENTIFIER` dict. -/
def MIME_TYPE_TO_PIL_IDENTIFIER : List (String × String) :=
  [("image/x-ms-bmp", "BMP"),
   ("image/bmp", "BMP"),
   ("image/dcx", "DCX"),
   ("image/eps", "eps"),
   ("image/gif", "GIF"),
   ("image/jpeg", "JPEG"),
   ("image/pcd", "PCD"),
   ("image/pcx", "PCX"),
   ("application/pdf", "PDF"),
   ("image/png", "PNG"),
   ("image/x-ppm", "PPM"),
   ("image/psd", "PSD"),
   ("image/tiff", "TIFF"),
   ("image/x-xbitmap", "XBM"),
   ("image/x-xpm", "XPM"),
   ("image/webp", "WEBP")]

/-- Embedding of `get_image_metadata_from_file`.  The external
`puremagic.magic_stream` sniffing collaborator is abstracted as the list of
candidate MIME-type strings it returned (`sniffed`); the code takes the first
candidate, or the empty string when there is none, and then performs a bare
dict lookup `MIME_TYPE_TO_PIL_IDENTIFIER[mime_type]`, which raises `KeyError`
on a miss. -/
def get_image_metadata_from_file (sniffed : List String) :
    Except PyErr (String × String) :=
  let mime_type :=
    match sniffed with
    | [] => ""
    | m :: _ => m
  match MIME_TYPE_TO_PIL_IDENTIFIER.lookup mime_type with
  | some image_format => Except.ok (image_format, mime_type)
  | none => Except.error (PyErr.keyError mime_type)

/-! ## Name encoders -/

/-- Embedding of `get_resized_filename`: split the name into stem and
extension on the last dot (defaulting the extension to `jpg`), build the
`filename_key-widthxheight` key, append `-quality` for the lossy extensions
`jpg`/`jpeg`/`webp` (WEBP quality for `webp`, JPEG quality otherwise), run the
key through the post-processing hook and reassemble `stem-key.ext`. -/
def get_resized_filename (cfg : Config) (filename : String) (width height : Int)
    (filename_key : String) : String :=
  let (image_name, ext) := rsplitExt filename
  let quality : Int := if pyLower ext == "webp" then cfg.WEBP_QUAL else cfg.JPEG_QUAL
  let resized_key :=
    if pyLower ext == "jpg" || pyLower ext == "jpeg" || pyLower ext == "webp" then
      filename_key ++ "-" ++ toString width ++ "x" ++ toString height
        ++ "-" ++ toString quality
    else
      filename_key ++ "-" ++ toString width ++ "x" ++ toString height
  image_name ++ "-" ++ post_process_image_key cfg resized_key ++ "." ++ ext

/-- Embedding of `get_filtered_filename`: same stem/extension split, then
`stem__filename_key__.ext`.  The source interpolates `filename_key` directly
into the template; `post_process_image_key` is not called here. -/
def get_filtered_filename (filename : String) (filename_key : String) : String :=
  let (image_name, ext) := rsplitExt filename
  image_name ++ "__" ++ filename_key ++ "__." ++ ext

/-! ## Path builders -/

/-- Embedding of `get_resized_path`: join the sized directory name, the
containing folder and the encoded sized name, then strip spaces.  The
`storage` argument is accepted, as in the source, and never consulted. -/
def get_resized_path {σ : Type} (cfg : Config) (path_to_image : String)
    (width height : Int) (filename_key : String) (storage : σ) : String :=
  let (containing_folder, filename) := pathSplit path_to_image
  let resized_filename := get_resized_filename cfg filename width height filename_key
  removeSpaces (pathJoin [cfg.SIZED_DIRNAME, containing_folder, resized_filename])

/-- Embedding of `get_filtered_path`: join the containing folder, the filtered
directory name and the encoded filtered name, then strip spaces.  The
`storage` argument is accepted, as in the source, and never consulted. -/
def get_filtered_path {σ : Type} (cfg : Config) (path_to_image : String)
    (filename_key : String) (storage : σ) : String :=
  let (containing_folder, filename) := pathSplit path_to_image
  let filtered_filename := get_filtered_filename filename filename_key
  removeSpaces (pathJoin [containing_folder, cfg.FILTERED_DIRNAME, filtered_filename])

/-! ## Size-key grammar -/

/-- The two exceptions `validate_versatileimagefield_sizekey_list` can raise:
`InvalidSizeKeySet` (carrying the whole offending input, from the caught
`ValueError` of tuple unpacking) and `InvalidSizeKey` (carrying the offending
size key). -/
inductive ValidationError where
  | invalidSizeKeySet (sizes : List (List String))
  | invalidSizeKey (key : String)
deriving DecidableEq, Repr

/-- What the `for key, size_key in sizes` loop body signals: the `ValueError`
of unpacking an element that is not a 2-tuple, or the `InvalidSizeKey` raise. -/
inductive LoopSignal where
  | valueError
  | invalidSizeKey (key : String)
deriving DecidableEq, Repr

/-- The last `__`-separated segment of a size key (`size_key.split('__')[-1]`;
the split of any string is nonempty, so the default is never used). -/
def lastSegment (size_key : String) : String :=
  (pySplitDunder size_key).getLastD ""

/-- Embedding of the validation loop of
`validate_versatileimagefield_sizekey_list`: elements are Python tuples of
strings, unpacked in iteration order; a non-2-tuple raises `ValueError`, and a
pair whose key's last segment is neither `url` nor contains `x` raises
`InvalidSizeKey`. -/
def sizekeyLoop : List (List String) → Option LoopSignal
  | [] => none
  | e :: rest =>
    match e with
    | [_label, size_key] =>
      if lastSegment size_key != "url" && !(pyContains (lastSegment size_key) 'x') then
        some (LoopSignal.invalidSizeKey size_key)
      else
        sizekeyLoop rest
    | _ => some LoopSignal.valueError

/-- Embedding of `validate_versatileimagefield_sizekey_list`: run the loop;
a `ValueError` is caught and re-raised as `InvalidSizeKeySet` naming the whole
input, an `InvalidSizeKey` propagates, and on success the function returns
`list(set(sizes))`, modelled as duplicate elimination on the input list. -/
def validate_versatileimagefield_sizekey_list (sizes : List (List String)) :
    Except ValidationError (List (List String)) :=
  match sizekeyLoop sizes with
  | some LoopSignal.valueError =>
      Except.error (ValidationError.invalidSizeKeySet sizes)
  | some (LoopSignal.invalidSizeKey k) =>
      Except.error (ValidationError.invalidSizeKey k)
  | none => Except.ok sizes.dedup

/-- A size key is grammatically valid when its last segment is the literal
`url` or contains the character `x`. -/
def sizeKeyValidB (size_key : String) : Bool :=
  lastSegment size_key == "url" || pyContains (lastSegment size_key) 'x'

/-- An element of a size-key set is a valid pair when it is a 2-tuple whose
size key is grammatically valid. -/
def validPairB (e : List String) : Bool :=
  match e with
  | [_label, size_key] => sizeKeyValidB size_key
  | _ => false

/-! ## URL resolver -/

/-- The Python object graph seen by `get_url_from_image_key`: a value is
either a plain string (a URL) or an object exposing named attributes (for
`getattr`) and keyed entries (for `obj[key]`). -/
inductive PyVal where
  | vstr (s : String)
  | vobj (attrs : List (String × PyVal)) (items : List (String × PyVal))

/-- Python `getattr(v, name)`: attribute lookup, raising `AttributeError`
naming the attribute when it is absent (strings expose no capability
attributes in this model). -/
def pyGetattr : PyVal → String → Except PyErr PyVal
  | PyVal.vstr _, name => Except.error (PyErr.attributeError name)
  | PyVal.vobj attrs _, name =>
    match attrs.lookup name with
    | some w => Except.ok w
    | none => Except.error (PyErr.attributeError name)

/-- Python `v[key]` for string keys: keyed lookup, raising `KeyError` naming
the key when it is absent and `TypeError` when the value is a string. -/
def pyGetItem : PyVal → String → Except PyErr PyVal
  | PyVal.vstr _, _key => Except.error PyErr.typeError
  | PyVal.vobj _ items, key =>
    match items.lookup key with
    | some w => Except.ok w
    | none => Except.error (PyErr.keyError key)

/-- Python `reduce(getattr, segments, image_instance)`: left-to-right
attribute-chain walk, stopping at the first raised error. -/
def reduceGetattr (v : PyVal) : List String → Except PyErr PyVal
  | [] => Except.ok v
  | seg :: rest =>
    match pyGetattr v seg with
    | Except.ok next => reduceGetattr next rest
    | Except.error e => Except.error e

/-- Embedding of `get_url_from_image_key`: split the key on `__`; when the
last segment contains `x` it is popped off, the remaining segments are
resolved by chained `getattr`, and the popped token is looked up on the result
followed by its `url` attribute; otherwise all segments are resolved by
chained `getattr` and the result is returned directly. -/
def get_url_from_image_key (image_instance : PyVal) (image_key : String) :
    Except PyErr PyVal :=
  let img_key_split := pySplitDunder image_key
  if pyContains (img_key_split.getLastD "") 'x' then do
    let obj ← reduceGetattr image_instance img_key_split.dropLast
    let entry ← pyGetItem obj (img_key_split.getLastD "")
    pyGetattr entry "url"
  else
    reduceGetattr image_instance img_key_split

/-- The dimension token of a segmented size key as the specification words it
(spec section 4.4 step 2): the last segment, when it contains `x`. -/
def dimensionToken (segments : List String) : Option String :=
  match segments.getLast? with
  | some lastSeg => if pyContains lastSeg 'x' then some lastSeg else none
  | none => none

/-- Transcription of the capability-chain resolution algorithm as the
specification states it (spec section 4.4): split the key, pop the dimension
token if the last segment contains `x`, walk the remaining segments left to
right from the root, and finish with the keyed lookup of the token plus its
`url` property when a token was popped, otherwise return the final resolved
value itself. -/
def resolveURLSpec (root : PyVal) (sizeKey : String) : Except PyErr PyVal :=
  let segments := pySplitDunder sizeKey
  match dimensionToken segments with
  | some tok => do
      let finalObj ← reduceGetattr root segments.dropLast
      let entry ← pyGetItem finalObj tok
      pyGetattr entry "url"
  | none => reduceGetattr root segments

/-! ## URL-set builder -/

/-- The image instance passed to `build_versatileimagefield_url_set`: its
Python truthiness, the truthiness of `image_instance.field.placeholder_image`,
and the capability tree used by the resolver. -/
structure ImageInstance where
  truthy : Bool
  placeholder_image : Bool
  val : PyVal

/-- The exceptions `build_versatileimagefield_url_set` can propagate: the two
validation errors, an uncaught resolution error, and the `ValueError` of
unpacking a non-pair while iterating the validated set. -/
inductive BuildErr where
  | invalidSizeKeySet (sizes : List (List String))
  | invalidSizeKey (key : String)
  | resolution (e : PyErr)
  | valueError

/-- Python `request.build_absolute_uri(img_url)` guarded by
`if request is not None`: the optional absolute-URL rewriting collaborator. -/
def applyRequest (request : Option (PyVal → PyVal)) (u : PyVal) : PyVal :=
  match request with
  | some build_absolute_uri => build_absolute_uri u
  | none => u

/-- Python `to_return[key] = v` on a dict modelled as an ordered association
list: replace the binding in place when the key is present, append otherwise. -/
def dictInsert (d : List (String × PyVal)) (k : String) (v : PyVal) :
    List (String × PyVal) :=
  if k ∈ d.map Prod.fst then
    d.map (fun p => if p.1 = k then (k, v) else p)
  else
    d ++ [(k, v)]

/-- The `for key, image_key in size_set` loop of
`build_versatileimagefield_url_set`: resolve each key, optionally rewrite the
URL, and store it under the label. -/
def urlSetLoop (inst : ImageInstance) (request : Option (PyVal → PyVal)) :
    List (List String) → List (String × PyVal) → Except BuildErr (List (String × PyVal))
  | [], to_return => Except.ok to_return
  | e :: rest, to_return =>
    match e with
    | [key, image_key] =>
      match get_url_from_image_key inst.val image_key with
      | Except.error err => Except.error (BuildErr.resolution err)
      | Except.ok u =>
          urlSetLoop inst request rest (dictInsert to_return key (applyRequest request u))
    | _ => Except.error BuildErr.valueError

/-- Embedding of `build_versatileimagefield_url_set`: validate the set,
return the empty dict when the instance is falsy and its field has no
placeholder image, and otherwise accumulate one dict entry per validated pair
in iteration order. -/
def build_versatileimagefield_url_set (image_instance : ImageInstance)
    (size_set : List (List String)) (request : Option (PyVal → PyVal)) :
    Except BuildErr (List (String × PyVal)) :=
  match validate_versatileimagefield_sizekey_list size_set with
  | Except.error (ValidationError.invalidSizeKeySet s) =>
      Except.error (BuildErr.invalidSizeKeySet s)
  | Except.error (ValidationError.invalidSizeKey k) =>
      Except.error (BuildErr.invalidSizeKey k)
  | Except.ok validated =>
    if image_instance.truthy || image_instance.placeholder_image then
      urlSetLoop image_instance request validated []
    else
      Except.ok []

/-! ## Spec-side transcriptions and example fixtures -/

/-- Transcription of the sized-name template as the specification words it
(spec section 4.2): split into stem and extension on the last dot (extension
defaulting to `jpg`), build `filenameKey-widthxheight`, append `-quality` when
the extension is case-insensitively `jpg`, `jpeg` or `webp` (the WEBP constant
for `webp`, the JPEG constant otherwise), apply the post-processing hook and
assemble `stem-processedKey.ext`. -/
def sizedNameSpec (cfg : Config) (fileName : String) (width height : Int)
    (filenameKey : String) : String :=
  let stem := (rsplitExt fileName).1
  let ext := (rsplitExt fileName).2
  let base := filenameKey ++ "-" ++ toString width ++ "x" ++ toString height
  let lossy := pyLower ext == "jpg" || pyLower ext == "jpeg" || pyLower ext == "webp"
  let quality := if pyLower ext == "webp" then cfg.WEBP_QUAL else cfg.JPEG_QUAL
  let resizedKey := if lossy then base ++ "-" ++ toString quality else base
  stem ++ "-" ++ post_process_image_key cfg resizedKey ++ "." ++ ext

/-- A configuration with JPEG quality 70, WEBP quality 80 and no
post-processing hook (the identity hook). -/
def exampleCfg : Config :=
  { JPEG_QUAL := 70
    WEBP_QUAL := 80
    POST_PROCESSOR := none
    SIZED_DIRNAME := "__sized__"
    FILTERED_DIRNAME := "__filtered__" }

/-- A configuration whose post-processing hook rewrites every key to
`HOOKED`. -/
def hookedCfg : Config :=
  { JPEG_QUAL := 70
    WEBP_QUAL := 80
    POST_PROCESSOR := some (fun _ => "HOOKED")
    SIZED_DIRNAME := "__sized__"
    FILTERED_DIRNAME := "__filtered__" }

/-- A root object whose `crop` capability yields an object with keyed entry
`400x400` whose `url` property is `http://x/y.jpg`. -/
def exampleRoot : PyVal :=
  PyVal.vobj
    [("crop", PyVal.vobj [] [("400x400", PyVal.vobj [("url", PyVal.vstr "http://x/y.jpg")] [])])]
    []

/-! ## Helper lemmas -/

/-- The two branches of `get_url_from_image_key` agree with the
`dimensionToken`-driven presentation of the specification, for any segment
list. -/
theorem resolve_core (root : PyVal) (parts : List String) :
    (if pyContains (parts.getLastD "") 'x' then do
      let obj ← reduceGetattr root parts.dropLast
      let entry ← pyGetItem obj (parts.getLastD "")
      pyGetattr entry "url"
    else reduceGetattr root parts)
    = (match dimensionToken parts with
       | some tok => do
           let finalObj ← reduceGetattr root parts.dropLast
           let entry ← pyGetItem finalObj tok
           pyGetattr entry "url"
       | none => reduceGetattr root parts) := by
  rcases List.eq_nil_or_concat parts with rfl | ⟨L, b, rfl⟩
  · rfl
  · rw [List.concat_eq_append, List.getLastD_concat, List.dropLast_concat]
    unfold dimensionToken
    rw [List.getLast?_concat]
    by_cases hb : pyContains b 'x' = true
    · simp only [hb, if_true]
    · simp only [hb, if_false, Bool.false_eq_true, ite_false]

/-- The raise condition of the validation loop is the negation of grammatical
validity of the size key. -/
theorem loop_cond_eq (k : String) :
    (lastSegment k != "url" && !(pyContains (lastSegment k) 'x'))
      = !(sizeKeyValidB k) := by
  unfold sizeKeyValidB
  cases h1 : (lastSegment k == "url") <;>
    cases h2 : pyContains (lastSegment k) 'x' <;>
      simp [bne, h1, h2]

/-- The validation loop finishes silently exactly when every element is a
valid pair. -/
theorem sizekeyLoop_none_iff (L : List (List String)) :
    sizekeyLoop L = none ↔ ∀ e ∈ L, validPairB e = true := by
  induction L with
  | nil => simp [sizekeyLoop]
  | cons a rest ih =>
    rcases a with _ | ⟨lab, tail⟩
    · simp [sizekeyLoop, validPairB]
    rcases tail with _ | ⟨k, tail2⟩
    · simp [sizekeyLoop, validPairB]
    rcases tail2 with _ | ⟨c, tail3⟩
    · by_cases hv : sizeKeyValidB k = true
      · simp [sizekeyLoop, loop_cond_eq, hv, validPairB, ih]
      · simp only [Bool.not_eq_true] at hv
        simp [sizekeyLoop, loop_cond_eq, hv, validPairB]
    · simp [sizekeyLoop, validPairB]

/-- The validation loop signals `ValueError` exactly when the first offending
element in iteration order is one that is not a 2-tuple (every earlier
element being a valid pair). -/
theorem sizekeyLoop_valueError_iff (L : List (List String)) :
    sizekeyLoop L = some LoopSignal.valueError
      ↔ ∃ pre e post, L = pre ++ e :: post
          ∧ (∀ x ∈ pre, validPairB x = true) ∧ e.length ≠ 2 := by
  induction L with
  | nil =>
    simp only [sizekeyLoop]
    constructor
    · intro h; cases h
    · rintro ⟨pre, e, post, heq, -, -⟩
      exact absurd heq.symm (List.append_ne_nil_of_right_ne_nil pre (by simp))
  | cons a rest ih =>
    constructor
    · intro h
      rcases a with _ | ⟨lab, tail⟩
      · exact ⟨[], [], rest, rfl, by simp, by simp⟩
      rcases tail with _ | ⟨k, tail2⟩
      · exact ⟨[], [lab], rest, rfl, by simp, by simp⟩
      rcases tail2 with _ | ⟨c, tail3⟩
      · by_cases hv : sizeKeyValidB k = true
        · have h2 : sizekeyLoop rest = some LoopSignal.valueError := by
            simpa [sizekeyLoop, loop_cond_eq, hv] using h
          rcases ih.mp h2 with ⟨pre, e, post, heq, hpre, hbad⟩
          refine ⟨[lab, k] :: pre, e, post, by rw [heq]; rfl, ?_, hbad⟩
          intro x hx
          rcases List.mem_cons.mp hx with rfl | hx2
          · simp [validPairB, hv]
          · exact hpre x hx2
        · simp only [Bool.not_eq_true] at hv
          simp [sizekeyLoop, loop_cond_eq, hv] at h
      · exact ⟨[], lab :: k :: c :: tail3, rest, rfl, by simp, by simp⟩
    · rintro ⟨pre, e, post, heq, hpre, hbad⟩
      rcases pre with _ | ⟨p, pre2⟩
      · simp only [List.nil_append, List.cons.injEq] at heq
        rcases heq with ⟨rfl, rfl⟩
        rcases a with _ | ⟨lab, tail⟩
        · rfl
        rcases tail with _ | ⟨k, tail2⟩
        · rfl
        rcases tail2 with _ | ⟨c, tail3⟩
        · exact absurd rfl hbad
        · rfl
      · simp only [List.cons_append, List.cons.injEq] at heq
        rcases heq with ⟨rfl, heq2⟩
        have hp : validPairB a = true := hpre a (by simp)
        rcases a with _ | ⟨lab, tail⟩
        · simp [validPairB] at hp
        rcases tail with _ | ⟨k, tail2⟩
        · simp [validPairB] at hp
        rcases tail2 with _ | ⟨c, tail3⟩
        · have hv : sizeKeyValidB k = true := hp
          have h2 : sizekeyLoop rest = some LoopSignal.valueError :=
            ih.mpr ⟨pre2, e, post, heq2, fun x hx => hpre x (by simp [hx]), hbad⟩
          simp [sizekeyLoop, loop_cond_eq, hv, h2]
        · simp [validPairB] at hp

/-- The validation loop raises `InvalidSizeKey k` exactly when the first
offending element in iteration order is a pair whose size key `k` fails the
grammar (every earlier element being a valid pair). -/
theorem sizekeyLoop_invalidKey_iff (L : List (List String)) (k : String) :
    sizekeyLoop L = some (LoopSignal.invalidSizeKey k)
      ↔ ∃ pre lab post, L = pre ++ [lab, k] :: post
          ∧ (∀ x ∈ pre, validPairB x = true) ∧ sizeKeyValidB k = false := by
  induction L with
  | nil =>
    simp only [sizekeyLoop]
    constructor
    · intro h; cases h
    · rintro ⟨pre, lab, post, heq, -, -⟩
      exact absurd heq.symm (List.append_ne_nil_of_right_ne_nil pre (by simp))
  | cons a rest ih =>
    constructor
    · intro h
      rcases a with _ | ⟨lab, tail⟩
      · simp [sizekeyLoop] at h
      rcases tail with _ | ⟨k0, tail2⟩
      · simp [sizekeyLoop] at h
      rcases tail2 with _ | ⟨c, tail3⟩
      · by_cases hv : sizeKeyValidB k0 = true
        · have h2 : sizekeyLoop rest = some (LoopSignal.invalidSizeKey k) := by
            simpa [sizekeyLoop, loop_cond_eq, hv] using h
          rcases ih.mp h2 with ⟨pre, lab2, post, heq, hpre, hbad⟩
          refine ⟨[lab, k0] :: pre, lab2, post, by rw [heq]; rfl, ?_, hbad⟩
          intro x hx
          rcases List.mem_cons.mp hx with rfl | hx2
          · simp [validPairB, hv]
          · exact hpre x hx2
        · simp only [Bool.not_eq_true] at hv
          have hk : k0 = k := by
            simpa [sizekeyLoop, loop_cond_eq, hv] using h
          subst hk
          exact ⟨[], lab, rest, rfl, by simp, hv⟩
      · simp [sizekeyLoop] at h
    · rintro ⟨pre, lab, post, heq, hpre, hbad⟩
      rcases pre with _ | ⟨p, pre2⟩
      · simp only [List.nil_append, List.cons.injEq] at heq
        rcases heq with ⟨rfl, rfl⟩
        simp [sizekeyLoop, loop_cond_eq, hbad]
      · simp only [List.cons_append, List.cons.injEq] at heq
        rcases heq with ⟨rfl, heq2⟩
        have hp : validPairB a = true := hpre a (by simp)
        rcases a with _ | ⟨lab0, tail⟩
        · simp [validPairB] at hp
        rcases tail with _ | ⟨k0, tail2⟩
        · simp [validPairB] at hp
        rcases tail2 with _ | ⟨c, tail3⟩
        · have hv : sizeKeyValidB k0 = true := hp
          have h2 : sizekeyLoop rest = some (LoopSignal.invalidSizeKey k) :=
            ih.mpr ⟨pre2, lab, post, heq2, fun x hx => hpre x (by simp [hx]), hbad⟩
          simp [sizekeyLoop, loop_cond_eq, hv, h2]
        · simp [validPairB] at hp

/-- A failing `getattr` raises `AttributeError` naming exactly the looked-up
attribute. -/
theorem pyGetattr_error_eq (v : PyVal) (name : String) (e : PyErr)
    (h : pyGetattr v name = Except.error e) : e = PyErr.attributeError name := by
  cases v with
  | vstr s =>
    simp only [pyGetattr, Except.error.injEq] at h
    exact h.symm
  | vobj attrs items =>
    simp only [pyGetattr] at h
    cases hl : attrs.lookup name with
    | some w => rw [hl] at h; cases h
    | none =>
      rw [hl] at h
      injection h with h2
      exact h2.symm

/-- A failing keyed lookup raises `KeyError` naming exactly the looked-up key,
or `TypeError` when the subscripted value is a string. -/
theorem pyGetItem_error_eq (v : PyVal) (key : String) (e : PyErr)
    (h : pyGetItem v key = Except.error e) :
    e = PyErr.keyError key ∨ e = PyErr.typeError := by
  cases v with
  | vstr s =>
    simp only [pyGetItem, Except.error.injEq] at h
    exact Or.inr h.symm
  | vobj attrs items =>
    simp only [pyGetItem] at h
    cases hl : items.lookup key with
    | some w => rw [hl] at h; cases h
    | none =>
      rw [hl] at h
      injection h with h2
      exact Or.inl h2.symm

/-- A failing attribute-chain walk raises `AttributeError` naming one of the
walked segments. -/
theorem reduceGetattr_error_mem (parts : List String) :
    ∀ (v : PyVal) (e : PyErr), reduceGetattr v parts = Except.error e →
      ∃ seg ∈ parts, e = PyErr.attributeError seg := by
  induction parts with
  | nil =>
    intro v e h
    simp [reduceGetattr] at h
  | cons s rest ih =>
    intro v e h
    unfold reduceGetattr at h
    cases hg : pyGetattr v s with
    | error e2 =>
      rw [hg] at h
      injection h with h2
      subst h2
      exact ⟨s, by simp, pyGetattr_error_eq v s e2 hg⟩
    | ok next =>
      rw [hg] at h
      rcases ih next e h with ⟨seg, hm, he⟩
      exact ⟨seg, by simp [hm], he⟩

/-- Every binding of `dictInsert d k v` is the new binding or a binding of
`d`. -/
theorem dictInsert_mem (d : List (String × PyVal)) (k : String) (v : PyVal)
    (p : String × PyVal) (h : p ∈ dictInsert d k v) : p = (k, v) ∨ p ∈ d := by
  unfold dictInsert at h
  by_cases hk : k ∈ d.map Prod.fst
  · rw [if_pos hk] at h
    rcases List.mem_map.mp h with ⟨q, hq, heq⟩
    by_cases hq1 : q.1 = k
    · rw [if_pos hq1] at heq
      exact Or.inl heq.symm
    · rw [if_neg hq1] at heq
      rw [← heq]
      exact Or.inr hq
  · rw [if_neg hk] at h
    rcases List.mem_append.mp h with h2 | h2
    · exact Or.inr h2
    · exact Or.inl (by simpa using h2)

/-- Inserting under a key that is already bound leaves the key list
unchanged. -/
theorem dictInsert_keys_of_mem (d : List (String × PyVal)) (k : String)
    (v : PyVal) (hk : k ∈ d.map Prod.fst) :
    (dictInsert d k v).map Prod.fst = d.map Prod.fst := by
  unfold dictInsert
  rw [if_pos hk, List.map_map]
  have hfun : (Prod.fst ∘ fun p : String × PyVal => if p.1 = k then (k, v) else p)
      = Prod.fst := by
    funext q
    by_cases hq : q.1 = k <;> simp [Function.comp, hq]
  rw [hfun]

/-- Inserting under a fresh key appends it to the key list. -/
theorem dictInsert_keys_of_not_mem (d : List (String × PyVal)) (k : String)
    (v : PyVal) (hk : k ∉ d.map Prod.fst) :
    (dictInsert d k v).map Prod.fst = d.map Prod.fst ++ [k] := by
  unfold dictInsert
  rw [if_neg hk, List.map_append]
  rfl

/-- Key membership after a dict insertion. -/
theorem dictInsert_keys_mem (d : List (String × PyVal)) (k : String)
    (v : PyVal) (lab : String) :
    lab ∈ (dictInsert d k v).map Prod.fst ↔ lab ∈ d.map Prod.fst ∨ lab = k := by
  by_cases hk : k ∈ d.map Prod.fst
  · rw [dictInsert_keys_of_mem d k v hk]
    constructor
    · exact Or.inl
    · rintro (h | rfl)
      · exact h
      · exact hk
  · rw [dictInsert_keys_of_not_mem d k v hk]
    simp [List.mem_append]

/-- Dict insertion preserves key distinctness. -/
theorem dictInsert_keys_nodup (d : List (String × PyVal)) (k : String)
    (v : PyVal) (h : (d.map Prod.fst).Nodup) :
    ((dictInsert d k v).map Prod.fst).Nodup := by
  by_cases hk : k ∈ d.map Prod.fst
  · rw [dictInsert_keys_of_mem d k v hk]
    exact h
  · rw [dictInsert_keys_of_not_mem d k v hk]
    simp [List.nodup_append, h, hk]

/-- Invariant of the URL-set loop: on success the dict keys stay distinct,
the keys are exactly the accumulated keys plus the labels of the processed
pairs, and every binding either came in with the accumulator or records the
resolved (and optionally rewritten) URL of one of the processed pairs. -/
theorem urlSetLoop_ok_spec (inst : ImageInstance) (request : Option (PyVal → PyVal)) :
    ∀ (L : List (List String)) (acc d : List (String × PyVal)),
      urlSetLoop inst request L acc = Except.ok d →
      ((acc.map Prod.fst).Nodup → (d.map Prod.fst).Nodup)
      ∧ (∀ lab, lab ∈ d.map Prod.fst ↔ lab ∈ acc.map Prod.fst ∨ ∃ sk, [lab, sk] ∈ L)
      ∧ (∀ p ∈ d, p ∈ acc
            ∨ ∃ sk u, [p.1, sk] ∈ L
                ∧ get_url_from_image_key inst.val sk = Except.ok u
                ∧ p.2 = applyRequest request u) := by
  intro L
  induction L with
  | nil =>
    intro acc d h
    simp only [urlSetLoop] at h
    injection h with h2
    subst h2
    refine ⟨id, ?_, ?_⟩
    · intro lab; simp
    · intro p hp; exact Or.inl hp
  | cons e rest ih =>
    intro acc d h
    rcases e with _ | ⟨key, tail⟩
    · simp [urlSetLoop] at h
    rcases tail with _ | ⟨ik, tail2⟩
    · simp [urlSetLoop] at h
    rcases tail2 with _ | ⟨c, tail3⟩
    · simp only [urlSetLoop] at h
      cases hg : get_url_from_image_key inst.val ik with
      | error err => rw [hg] at h; cases h
      | ok u =>
        rw [hg] at h
        rcases ih (dictInsert acc key (applyRequest request u)) d h with ⟨hn, hm, hp⟩
        refine ⟨?_, ?_, ?_⟩
        · intro hacc
          exact hn (dictInsert_keys_nodup _ _ _ hacc)
        · intro lab
          rw [hm lab, dictInsert_keys_mem]
          constructor
          · rintro ((h1 | rfl) | ⟨sk, hsk⟩)
            · exact Or.inl h1
            · exact Or.inr ⟨ik, by simp⟩
            · exact Or.inr ⟨sk, by simp [hsk]⟩
          · rintro (h1 | ⟨sk, hsk⟩)
            · exact Or.inl (Or.inl h1)
            · rcases List.mem_cons.mp hsk with heq | h2
              · injection heq with h3 _
                exact Or.inl (Or.inr h3)
              · exact Or.inr ⟨sk, h2⟩
        · intro p hp2
          rcases hp p hp2 with hin | ⟨sk, u2, hmem, hres, happ⟩
          · rcases dictInsert_mem _ _ _ _ hin with rfl | hin2
            · exact Or.inr ⟨ik, u, by simp, hg, rfl⟩
            · exact Or.inl hin2
          · exact Or.inr ⟨sk, u2, by simp [hmem], hres, happ⟩
    · simp [urlSetLoop] at h

/-- The URL-set loop succeeds when every element is a pair whose key
resolves. -/
theorem urlSetLoop_ok_of_resolvable (inst : ImageInstance)
    (request : Option (PyVal → PyVal)) :
    ∀ (L : List (List String)) (acc : List (String × PyVal)),
      (∀ e ∈ L, ∃ lab sk u, e = [lab, sk]
          ∧ get_url_from_image_key inst.val sk = Except.ok u) →
      ∃ d, urlSetLoop inst request L acc = Except.ok d := by
  intro L
  induction L with
  | nil =>
    intro acc _
    exact ⟨acc, rfl⟩
  | cons e rest ih =>
    intro acc hall
    rcases hall e (by simp) with ⟨lab, sk, u, rfl, hres⟩
    rcases ih (dictInsert acc lab (applyRequest request u))
        (fun x hx => hall x (by simp [hx])) with ⟨d, hd⟩
    refine ⟨d, ?_⟩
    simp only [urlSetLoop, hres]
    exact hd

/-- `removeSpaces` leaves no space character in its output. -/
theorem removeSpaces_no_space (s : String) : ' ' ∉ (removeSpaces s).data := by
  intro h
  have h2 := List.mem_filter.mp h
  simp at h2

/-! ## Claims -/

/-- C1: URL resolution follows the capability-chain algorithm of the
specification — split on `__`, pop the last segment as the dimension token
exactly when it contains `x`, resolve the remaining segments left to right by
attribute lookup from the root, and finish with the keyed lookup of the token
plus its `url` property when a token was popped, otherwise with the final
resolved value itself; in particular `crop__400x400` on the example root
resolves to `http://x/y.jpg`. -/
theorem url_resolution_follows_spec :
    (∀ (root : PyVal) (key : String),
        get_url_from_image_key root key = resolveURLSpec root key)
  ∧ get_url_from_image_key exampleRoot "crop__400x400"
      = Except.ok (PyVal.vstr "http://x/y.jpg") := by
  constructor
  · intro root key
    exact resolve_core root (pySplitDunder key)
  · rfl

/-- C3: the sized-name encoding is deterministic and follows the sized
template of the specification for every input, and the concrete example
`('photo.jpg', 400, 300, 'crop')` with JPEG quality 70 and identity hook
yields `photo-crop-400x300-70.jpg` (with the spec's no-extension example
defaulting to `jpg` as well). -/
theorem resized_name_follows_spec :
    (∀ (cfg : Config) (filename : String) (width height : Int) (key : String),
        get_resized_filename cfg filename width height key
          = sizedNameSpec cfg filename width height key)
  ∧ get_resized_filename exampleCfg "photo.jpg" 400 300 "crop"
      = "photo-crop-400x300-70.jpg"
  ∧ get_resized_filename exampleCfg "noext" 100 100 "thumb"
      = "noext-thumb-100x100-70.jpg" := by
  refine ⟨?_, rfl, rfl⟩
  intro cfg filename width height key
  rfl

/-- C5 counterexample: with a configured (non-identity) post-processing hook,
the filtered name still contains the raw filename key, not the
hook-transformed key the claim requires — `get_filtered_filename` never calls
the hook. -/
theorem filtered_name_ignores_hook :
    get_filtered_filename "photo.png" "invert" = "photo__invert__.png"
  ∧ post_process_image_key hookedCfg "invert" = "HOOKED"
  ∧ ("photo__invert__.png" : String) ≠ "photo__HOOKED__.png" :=
  ⟨rfl, rfl, by decide⟩

/-- C5 amended: the filtered encoded name is `stem__filenameKey__.ext` with
the raw filename key between the double underscores; the post-processing hook
is not applied in the filtered template (the function does not consult the
configuration at all). -/
theorem filtered_name_uses_raw_key :
    (∀ (filename filename_key : String),
        get_filtered_filename filename filename_key
          = (rsplitExt filename).1 ++ "__" ++ filename_key ++ "__."
              ++ (rsplitExt filename).2)
  ∧ get_filtered_filename "photo.png" "invert" = "photo__invert__.png" :=
  ⟨fun _ _ => rfl, rfl⟩

/-- C6 counterexample: resolving `filters__invert__url` on an object with no
capabilities fails with `AttributeError` carrying only the failing segment
`filters` — there is no `ResolutionError` kind in the code and the raised
error does not carry the full original size key. -/
theorem resolution_error_lacks_full_key :
    get_url_from_image_key (PyVal.vobj [] []) "filters__invert__url"
      = Except.error (PyErr.attributeError "filters")
  ∧ ("filters" : String) ≠ "filters__invert__url" :=
  ⟨rfl, by decide⟩

/-- C6 amended: every resolution failure is a language-level lookup error —
an `AttributeError` naming one of the key's segments (a missing capability),
an `AttributeError` naming `url` (the final URL-property lookup), a `KeyError`
naming the dimension token (the key's last segment), or a `TypeError` from
subscripting a string; no dedicated `ResolutionError` carrying the full
original size key exists. -/
theorem resolution_failure_kinds (root : PyVal) (image_key : String) (e : PyErr)
    (h : get_url_from_image_key root image_key = Except.error e) :
    (∃ seg ∈ pySplitDunder image_key, e = PyErr.attributeError seg)
  ∨ e = PyErr.attributeError "url"
  ∨ e = PyErr.keyError ((pySplitDunder image_key).getLastD "")
  ∨ e = PyErr.typeError := by
  unfold get_url_from_image_key at h
  by_cases hx : pyContains ((pySplitDunder image_key).getLastD "") 'x' = true
  · rw [if_pos hx] at h
    cases hr : reduceGetattr root (pySplitDunder image_key).dropLast with
    | error e2 =>
      rw [hr] at h
      have h2 : (Except.error e2 : Except PyErr PyVal) = Except.error e := h
      injection h2 with h3
      rw [← h3]
      rcases reduceGetattr_error_mem _ root e2 hr with ⟨seg, hm, he⟩
      exact Or.inl ⟨seg, List.dropLast_subset _ hm, he⟩
    | ok obj =>
      rw [hr] at h
      have h2 : (do
          let entry ← pyGetItem obj ((pySplitDunder image_key).getLastD "")
          pyGetattr entry "url") = Except.error e := h
      cases hi : pyGetItem obj ((pySplitDunder image_key).getLastD "") with
      | error e3 =>
        rw [hi] at h2
        have h3 : (Except.error e3 : Except PyErr PyVal) = Except.error e := h2
        injection h3 with h4
        rw [← h4]
        rcases pyGetItem_error_eq _ _ _ hi with h5 | h5
        · exact Or.inr (Or.inr (Or.inl h5))
        · exact Or.inr (Or.inr (Or.inr h5))
      | ok entry =>
        rw [hi] at h2
        have h3 : pyGetattr entry "url" = Except.error e := h2
        exact Or.inr (Or.inl (pyGetattr_error_eq _ _ _ h3))
  · rw [if_neg hx] at h
    rcases reduceGetattr_error_mem _ root e h with ⟨seg, hm, he⟩
    exact Or.inl ⟨seg, hm, he⟩

/-- C6 amended witness: the error-kind characterization instantiated on a
concrete failing resolution (`crop__400x400` on an empty object, which fails
with `AttributeError` on the segment `crop`). -/
theorem resolution_failure_kinds_witness :
    (∃ seg ∈ pySplitDunder "crop__400x400",
        PyErr.attributeError "crop" = PyErr.attributeError seg)
  ∨ PyErr.attributeError "crop" = PyErr.attributeError "url"
  ∨ PyErr.attributeError "crop"
      = PyErr.keyError ((pySplitDunder "crop__400x400").getLastD "")
  ∨ PyErr.attributeError "crop" = PyErr.typeError :=
  resolution_failure_kinds (PyVal.vobj [] []) "crop__400x400"
    (PyErr.attributeError "crop") rfl

/-- C7: on a sniffed MIME type outside the static table the code performs a
bare dict lookup and fails with a raw `KeyError` naming the MIME string — not
with the typed `UnsupportedFormat` the specification requires; with no sniffed
candidates the looked-up string is the empty string. -/
theorem classify_unknown_mime_raises_keyerror :
    get_image_metadata_from_file ["text/plain"]
      = Except.error (PyErr.keyError "text/plain")
  ∧ get_image_metadata_from_file [] = Except.error (PyErr.keyError "")
  ∧ get_image_metadata_from_file ["image/png"] = Except.ok ("PNG", "image/png") :=
  ⟨rfl, rfl, rfl⟩

/-- C8: the sized path is the space-stripped join of the sized directory, the
containing folder and the encoded sized name; the filtered path is the
space-stripped join of the containing folder, the filtered directory and the
encoded filtered name; and no space character survives in either returned
path. -/
theorem path_templates_space_stripped :
    (∀ (σ : Type) (cfg : Config) (p : String) (w h : Int) (k : String) (st : σ),
        get_resized_path cfg p w h k st
          = removeSpaces (pathJoin [cfg.SIZED_DIRNAME, (pathSplit p).1,
              get_resized_filename cfg (pathSplit p).2 w h k]))
  ∧ (∀ (σ : Type) (cfg : Config) (p k : String) (st : σ),
        get_filtered_path cfg p k st
          = removeSpaces (pathJoin [(pathSplit p).1, cfg.FILTERED_DIRNAME,
              get_filtered_filename (pathSplit p).2 k]))
  ∧ (∀ (σ : Type) (cfg : Config) (p : String) (w h : Int) (k : String) (st : σ),
        ' ' ∉ (get_resized_path cfg p w h k st).data)
  ∧ (∀ (σ : Type) (cfg : Config) (p k : String) (st : σ),
        ' ' ∉ (get_filtered_path cfg p k st).data) := by
  refine ⟨fun _ _ _ _ _ _ _ => rfl, fun _ _ _ _ _ => rfl, ?_, ?_⟩
  · intro σ cfg p w h k st
    exact removeSpaces_no_space _
  · intro σ cfg p k st
    exact removeSpaces_no_space _

/-- C2 counterexample: on the input `[("l", "crop_400_400"), ("a", "b", "c")]`
the element `("a", "b", "c")` cannot be unpacked into exactly two values, yet
validation fails with `InvalidSizeKey "crop_400_400"` (the earlier offense in
iteration order), not with `InvalidSizeKeySet` as the claim requires. -/
theorem validate_mixed_offense_counterexample :
    (["a", "b", "c"] : List String).length ≠ 2
  ∧ validate_versatileimagefield_sizekey_list [["l", "crop_400_400"], ["a", "b", "c"]]
      = Except.error (ValidationError.invalidSizeKey "crop_400_400")
  ∧ ValidationError.invalidSizeKey "crop_400_400"
      ≠ ValidationError.invalidSizeKeySet [["l", "crop_400_400"], ["a", "b", "c"]] :=
  ⟨by decide, rfl, by decide⟩

/-- C2 amended: validation scans the elements in iteration order and reports
the first offense — it succeeds exactly when every element is a 2-tuple whose
key's final `__`-segment is `url` or contains `x`; it fails with
`InvalidSizeKeySet` (naming the whole input) exactly when the first offending
element is one that cannot be unpacked into two values; it fails with
`InvalidSizeKey k` exactly when the first offending element is a pair whose
key `k` fails the grammar; and the examples behave as the claim states
(`crop__400x400`, `filters__invert__url` and `url` validate, `crop_400_400`
fails with `InvalidSizeKey`). -/
theorem validate_first_offense_contract (sizes : List (List String)) :
    ((∃ out, validate_versatileimagefield_sizekey_list sizes = Except.ok out)
        ↔ ∀ e ∈ sizes, validPairB e = true)
  ∧ (validate_versatileimagefield_sizekey_list sizes
        = Except.error (ValidationError.invalidSizeKeySet sizes)
        ↔ ∃ pre e post, sizes = pre ++ e :: post
            ∧ (∀ x ∈ pre, validPairB x = true) ∧ e.length ≠ 2)
  ∧ (∀ k, validate_versatileimagefield_sizekey_list sizes
        = Except.error (ValidationError.invalidSizeKey k)
        ↔ ∃ pre lab post, sizes = pre ++ [lab, k] :: post
            ∧ (∀ x ∈ pre, validPairB x = true) ∧ sizeKeyValidB k = false)
  ∧ sizeKeyValidB "crop__400x400" = true
  ∧ sizeKeyValidB "filters__invert__url" = true
  ∧ sizeKeyValidB "url" = true
  ∧ validate_versatileimagefield_sizekey_list [["small", "crop_400_400"]]
      = Except.error (ValidationError.invalidSizeKey "crop_400_400") := by
  refine ⟨?_, ?_, ?_, rfl, rfl, rfl, rfl⟩
  · rw [← sizekeyLoop_none_iff]
    unfold validate_versatileimagefield_sizekey_list
    cases h : sizekeyLoop sizes with
    | none => simp
    | some sig => cases sig <;> simp
  · rw [← sizekeyLoop_valueError_iff]
    unfold validate_versatileimagefield_sizekey_list
    cases h : sizekeyLoop sizes with
    | none => simp
    | some sig => cases sig <;> simp
  · intro k
    rw [← sizekeyLoop_invalidKey_iff]
    unfold validate_versatileimagefield_sizekey_list
    cases h : sizekeyLoop sizes with
    | none => simp
    | some sig => cases sig <;> simp

/-- C4: for a size-key set of valid pairs, validation succeeds, re-validating
its own output returns that output unchanged (idempotence), the output has no
duplicate pairs and contains exactly the distinct input pairs; and appending a
duplicate of a pair never changes the validation result. -/
theorem validate_idempotent_dedup (S : List (List String))
    (h : ∀ e ∈ S, validPairB e = true) :
    (∃ out, validate_versatileimagefield_sizekey_list S = Except.ok out
        ∧ validate_versatileimagefield_sizekey_list out = Except.ok out
        ∧ out.Nodup ∧ (∀ p, p ∈ out ↔ p ∈ S))
  ∧ (∀ (l k : String),
        validate_versatileimagefield_sizekey_list [[l, k], [l, k]]
          = validate_versatileimagefield_sizekey_list [[l, k]]) := by
  constructor
  · refine ⟨S.dedup, ?_, ?_, List.nodup_dedup S, fun p => List.mem_dedup⟩
    · have hl : sizekeyLoop S = none := (sizekeyLoop_none_iff S).mpr h
      simp [validate_versatileimagefield_sizekey_list, hl]
    · have h2 : ∀ e ∈ S.dedup, validPairB e = true :=
        fun e he => h e (List.mem_dedup.mp he)
      have hl : sizekeyLoop S.dedup = none := (sizekeyLoop_none_iff _).mpr h2
      simp [validate_versatileimagefield_sizekey_list, hl,
        List.Nodup.dedup (List.nodup_dedup S)]
  · intro l k
    by_cases hv : sizeKeyValidB k = true
    · have h2 : sizekeyLoop [[l, k], [l, k]] = none := by
        simp [sizekeyLoop, loop_cond_eq, hv]
      have h1 : sizekeyLoop [[l, k]] = none := by
        simp [sizekeyLoop, loop_cond_eq, hv]
      simp [validate_versatileimagefield_sizekey_list, h1, h2,
        List.dedup_cons_of_mem (show ([l, k] : List String) ∈ [[l, k]] by simp)]
    · simp only [Bool.not_eq_true] at hv
      have h2 : sizekeyLoop [[l, k], [l, k]] = some (LoopSignal.invalidSizeKey k) := by
        simp [sizekeyLoop, loop_cond_eq, hv]
      have h1 : sizekeyLoop [[l, k]] = some (LoopSignal.invalidSizeKey k) := by
        simp [sizekeyLoop, loop_cond_eq, hv]
      simp [validate_versatileimagefield_sizekey_list, h1, h2]

/-- C4 witness: the idempotence and dedup properties instantiated on a
concrete valid rendition key set. -/
theorem validate_idempotent_dedup_witness :
    (∀ e ∈ [["medium", "crop__400x400"], ["medium", "crop__400x400"]],
        validPairB e = true)
  ∧ ((∃ out, validate_versatileimagefield_sizekey_list
          [["medium", "crop__400x400"], ["medium", "crop__400x400"]] = Except.ok out
        ∧ validate_versatileimagefield_sizekey_list out = Except.ok out
        ∧ out.Nodup
        ∧ (∀ p, p ∈ out
            ↔ p ∈ [["medium", "crop__400x400"], ["medium", "crop__400x400"]]))
      ∧ (∀ (l k : String),
          validate_versatileimagefield_sizekey_list [[l, k], [l, k]]
            = validate_versatileimagefield_sizekey_list [[l, k]])) :=
  ⟨by decide, validate_idempotent_dedup _ (by decide)⟩

/-- A falsy image instance whose field has no placeholder image. -/
def instFalsy : ImageInstance :=
  { truthy := false
    placeholder_image := false
    val := PyVal.vobj [] [] }

/-- A truthy image instance whose capability tree resolves both `url`
(to `u1`) and `crop__2x2` (to `u2`). -/
def instCollision : ImageInstance :=
  { truthy := true
    placeholder_image := false
    val := PyVal.vobj
      [("url", PyVal.vstr "u1"),
       ("crop", PyVal.vobj [] [("2x2", PyVal.vobj [("url", PyVal.vstr "u2")] [])])]
      [] }

/-- C9 counterexample: on the valid set `[("a", "url"), ("a", "crop__2x2")]`
— two distinct (label, sizeKey) pairs sharing the label `a` — the returned
mapping has a single entry (the later pair overwrote the earlier one), not
one entry per distinct pair as the claim requires. -/
theorem build_url_set_label_collision :
    build_versatileimagefield_url_set instCollision
        [["a", "url"], ["a", "crop__2x2"]] none
      = Except.ok [("a", PyVal.vstr "u2")]
  ∧ ([["a", "url"], ["a", "crop__2x2"]] : List (List String)).dedup.length = 2
  ∧ ([("a", PyVal.vstr "u2")] : List (String × PyVal)).length = 1 :=
  ⟨rfl, by decide, rfl⟩

/-- C9 amended: for a valid rendition key set, a falsy image instance with no
placeholder yields the empty mapping (no resolution error can surface);
otherwise, any successfully returned mapping has pairwise-distinct labels as
keys, holds exactly one entry per distinct label occurring in the set, and
each entry carries the resolved (and optionally rewritten) URL of one of that
label's pairs; and when every pair's key resolves, the build does succeed. -/
theorem build_url_set_contract (inst : ImageInstance) (S : List (List String))
    (request : Option (PyVal → PyVal))
    (hS : ∀ e ∈ S, validPairB e = true) :
    (inst.truthy = false → inst.placeholder_image = false →
        build_versatileimagefield_url_set inst S request = Except.ok [])
  ∧ (∀ d, build_versatileimagefield_url_set inst S request = Except.ok d →
        (inst.truthy || inst.placeholder_image) = true →
        (d.map Prod.fst).Nodup
        ∧ (∀ lab, lab ∈ d.map Prod.fst ↔ ∃ sk, [lab, sk] ∈ S)
        ∧ (∀ p ∈ d, ∃ sk u, [p.1, sk] ∈ S
              ∧ get_url_from_image_key inst.val sk = Except.ok u
              ∧ p.2 = applyRequest request u))
  ∧ ((∀ e ∈ S, ∃ lab sk u, e = [lab, sk]
          ∧ get_url_from_image_key inst.val sk = Except.ok u) →
      (inst.truthy || inst.placeholder_image) = true →
      ∃ d, build_versatileimagefield_url_set inst S request = Except.ok d) := by
  have hloop : sizekeyLoop S = none := (sizekeyLoop_none_iff S).mpr hS
  have hval : validate_versatileimagefield_sizekey_list S = Except.ok S.dedup := by
    simp [validate_versatileimagefield_sizekey_list, hloop]
  refine ⟨?_, ?_, ?_⟩
  · intro ht hp
    simp [build_versatileimagefield_url_set, hval, ht, hp]
  · intro d hd hcond
    have hd2 : urlSetLoop inst request S.dedup [] = Except.ok d := by
      simpa [build_versatileimagefield_url_set, hval, hcond] using hd
    rcases urlSetLoop_ok_spec inst request S.dedup [] d hd2 with ⟨hn, hm, hp⟩
    refine ⟨hn (by simp), ?_, ?_⟩
    · intro lab
      rw [hm lab]
      constructor
      · rintro (h | ⟨sk, hsk⟩)
        · simp at h
        · exact ⟨sk, List.mem_dedup.mp hsk⟩
      · rintro ⟨sk, hsk⟩
        exact Or.inr ⟨sk, List.mem_dedup.mpr hsk⟩
    · intro p hp2
      rcases hp p hp2 with h | ⟨sk, u, hmem, hres, happ⟩
      · simp at h
      · exact ⟨sk, u, List.mem_dedup.mp hmem, hres, happ⟩
  · intro hresolve hcond
    rcases urlSetLoop_ok_of_resolvable inst request S.dedup []
        (fun e he => hresolve e (List.mem_dedup.mp he)) with ⟨d, hd⟩
    refine ⟨d, ?_⟩
    simp [build_versatileimagefield_url_set, hval, hcond, hd]

/-- C9 amended witness: the empty-mapping clause instantiated on a concrete
falsy instance with no placeholder and a concrete valid set. -/
theorem build_url_set_contract_witness :
    build_versatileimagefield_url_set instFalsy [["large", "url"]] none
      = Except.ok [] :=
  (build_url_set_contract instFalsy [["large", "url"]] none (by decide)).1 rfl rfl

/-- C10: the sized and filtered path builders ignore their storage argument —
two calls differing only in the storage argument (even across storage types)
return the same string. -/
theorem path_builders_storage_independent :
    ∀ (σ₁ σ₂ : Type) (cfg : Config) (p : String) (w h : Int) (k : String)
      (s₁ : σ₁) (s₂ : σ₂),
      get_resized_path cfg p w h k s₁ = get_resized_path cfg p w h k s₂
      ∧ get_filtered_path cfg p k s₁ = get_filtered_path cfg p k s₂ :=
  fun _ _ _ _ _ _ _ _ _ => ⟨rfl, rfl⟩

end VIF
